import Mathlib

/-!
Verification development for the beautiful-flicker analysis core.

The Python sources are shallowly embedded over `ℚ`: Python/NumPy float
values become rationals (decimal literals such as `0.0333` are exact in
`ℚ`), NumPy arrays become `List ℚ` (or `List (ℚ × ℚ)` for the 2-column
time/value data), and code paths that raise an uncaught Python exception
are modelled by `Option`-valued functions returning `none`.
-/

namespace BeautifulFlicker

/-! ### src/standards.py -/

/-- Embedding of `standards.ieee_1789_2015`.  The Python function is a
chain of `if` statements with early `return`s and no `else` after the
`frequency < 90` block, so control falls through from the low-frequency
block to the `<= 3 kHz` thresholds; the nested `if`s are flattened here
into guarded branches with conjunctions, preserving evaluation order. -/
def ieee_1789_2015 (frequency percent_flicker : ℚ) : String :=
  if 3000 < frequency then "No Risk"
  else if frequency < 90 ∧ percent_flicker < 0.01 * frequency then "No Risk"
  else if frequency < 90 ∧ percent_flicker < 0.025 * frequency then "Low Risk"
  else if percent_flicker < 0.0333 * frequency then "No Risk"
  else if frequency ≤ 1250 ∧ percent_flicker < 0.08 * frequency then "Low Risk"
  else "High Risk"

/-- C1 (counterexample): at frequency 80 Hz and percent flicker 2.2 we have
`0.025 * 80 = 2 ≤ 2.2 ≤ 100`, yet the code returns "No Risk", not
"High Risk": the `freq <= 3000` thresholds are reached by fall-through
even when the frequency is below 90 Hz. -/
theorem ieee_1789_2015_low_freq_fallthrough_cex :
    ieee_1789_2015 80 2.2 = "No Risk" ∧
      (0.025 * 80 : ℚ) ≤ 2.2 ∧ (2.2 : ℚ) ≤ 100 ∧
      ieee_1789_2015 80 2.2 ≠ "High Risk" := by
  have h : ieee_1789_2015 80 2.2 = "No Risk" := by
    unfold ieee_1789_2015
    norm_num
  refine ⟨h, by norm_num, by norm_num, ?_⟩
  rw [h]
  decide

/-- C1 (amended): below 90 Hz the `freq <= 3000` thresholds also apply by
fall-through, so for `0 ≤ f < 90` the classification above the
`0.025·f` threshold is three-zoned: "No Risk" below `0.0333·f`,
"Low Risk" below `0.08·f`, and "High Risk" only from `0.08·f` up. -/
theorem ieee_1789_2015_low_freq_zones (f p : ℚ) (hf0 : 0 ≤ f) (hf : f < 90) :
    (0.025 * f ≤ p → p < 0.0333 * f → ieee_1789_2015 f p = "No Risk") ∧
    (0.0333 * f ≤ p → p < 0.08 * f → ieee_1789_2015 f p = "Low Risk") ∧
    (0.08 * f ≤ p → p ≤ 100 → ieee_1789_2015 f p = "High Risk") := by
  have hA : ¬ 3000 < f := by linarith
  refine ⟨fun h1 h2 => ?_, fun h1 h2 => ?_, fun h1 h2 => ?_⟩
  · have hB : ¬ (f < 90 ∧ p < 0.01 * f) := by rintro ⟨-, h⟩; linarith
    have hC : ¬ (f < 90 ∧ p < 0.025 * f) := by rintro ⟨-, h⟩; linarith
    simp only [ieee_1789_2015, if_neg hA, if_neg hB, if_neg hC, if_pos h2]
  · have hB : ¬ (f < 90 ∧ p < 0.01 * f) := by rintro ⟨-, h⟩; linarith
    have hC : ¬ (f < 90 ∧ p < 0.025 * f) := by rintro ⟨-, h⟩; linarith
    have hD : ¬ p < 0.0333 * f := not_lt.2 h1
    have hE : f ≤ 1250 ∧ p < 0.08 * f := ⟨by linarith, h2⟩
    simp only [ieee_1789_2015, if_neg hA, if_neg hB, if_neg hC, if_neg hD,
      if_pos hE]
  · have hB : ¬ (f < 90 ∧ p < 0.01 * f) := by rintro ⟨-, h⟩; linarith
    have hC : ¬ (f < 90 ∧ p < 0.025 * f) := by rintro ⟨-, h⟩; linarith
    have hD : ¬ p < 0.0333 * f := by intro h; linarith
    have hE : ¬ (f ≤ 1250 ∧ p < 0.08 * f) := by rintro ⟨-, h⟩; linarith
    simp only [ieee_1789_2015, if_neg hA, if_neg hB, if_neg hC, if_neg hD,
      if_neg hE]

/-- C1 (witness): the three zones instantiated at 80 Hz. -/
theorem ieee_1789_2015_low_freq_zones_witness :
    ieee_1789_2015 80 2.2 = "No Risk" ∧ ieee_1789_2015 80 4 = "Low Risk" ∧
      ieee_1789_2015 80 10 = "High Risk" :=
  ⟨(ieee_1789_2015_low_freq_zones 80 2.2 (by norm_num) (by norm_num)).1
      (by norm_num) (by norm_num),
   (ieee_1789_2015_low_freq_zones 80 4 (by norm_num) (by norm_num)).2.1
      (by norm_num) (by norm_num),
   (ieee_1789_2015_low_freq_zones 80 10 (by norm_num) (by norm_num)).2.2
      (by norm_num) (by norm_num)⟩

/-- C6: `ieee_1789_2015` is total on `[0, ∞) × [0, 100]`: every input is
classified as one of the three risk strings (the straight-line embedding
of the chain of comparisons cannot fail). -/
theorem ieee_1789_2015_total (f p : ℚ) (hf : 0 ≤ f) (hp0 : 0 ≤ p)
    (hp1 : p ≤ 100) :
    ieee_1789_2015 f p = "No Risk" ∨ ieee_1789_2015 f p = "Low Risk" ∨
      ieee_1789_2015 f p = "High Risk" := by
  unfold ieee_1789_2015
  split_ifs <;> simp

/-- C6 (witness): totality instantiated at (120 Hz, 5 %). -/
theorem ieee_1789_2015_total_witness :
    ieee_1789_2015 120 5 = "No Risk" ∨ ieee_1789_2015 120 5 = "Low Risk" ∨
      ieee_1789_2015 120 5 = "High Risk" :=
  ieee_1789_2015_total 120 5 (by norm_num) (by norm_num) (by norm_num)

/-! ### Python/NumPy semantics helpers -/

/-- Python `int()` applied to a float: truncation toward zero. -/
def pyInt (q : ℚ) : Int :=
  if q < 0 then ⌈q⌉ else ⌊q⌋

/-- Python indexing `l[i]` on a 2D row list, with NumPy negative-index
wrap-around; `none` models an `IndexError`. -/
def pyGetPair (l : List (ℚ × ℚ)) (i : Int) : Option (ℚ × ℚ) :=
  if 0 ≤ i then l.get? i.toNat
  else if -i ≤ (l.length : Int) then l.get? (l.length - (-i).toNat) else none

/-- Effective stop position of a Python slice `l[a:b]` on a list of length
`n`: a negative `b` counts from the end, and the result is clamped to
`[0, n]`. -/
def pyStop (n : ℕ) (b : Int) : ℕ :=
  (min (max (if b < 0 then (n : Int) + b else b) 0) (n : Int)).toNat

/-- Python slice `l[a:b]` with a non-negative start (slices never raise). -/
def pySlice (l : List (ℚ × ℚ)) (a : ℕ) (b : Int) : List (ℚ × ℚ) :=
  (l.take (pyStop l.length b)).drop a

/-- NumPy read of `array[idx-1]` for `0 ≤ idx < len array`: for `idx = 0`
this is `array[-1]`, the last element. -/
def pyGetPrev (l : List ℚ) (idx : ℕ) : ℚ :=
  if idx = 0 then l.getD (l.length - 1) 0 else l.getD (idx - 1) 0

/-! ### src/waveform.py -/

/-- Embedding of `waveform.find_nearest_idx`:
`(np.abs(array-value)).argmin()`, the first index minimising the absolute
distance to `value` (NumPy `argmin` keeps the earliest minimum). -/
def find_nearest_idx (l : List ℚ) (v : ℚ) : ℕ :=
  (List.range l.length).foldl
    (fun best i => if |l.getD i 0 - v| < |l.getD best 0 - v| then i else best) 0

/-- Embedding of `waveform.find_nearest_idx_rising`.  The Python code
checks `array[idx] > array[idx-1] and array[idx] < array[idx+1]` (the
second conjunct is only evaluated when the first holds, and raises
`IndexError` — modelled as `none` — when `idx+1` runs past the end), and
otherwise recurses on the tail slice `array[idx+1:]`, returning the
recursive result without adding the slice offset back. -/
def find_nearest_idx_rising (l : List ℚ) (v : ℚ) : Option ℕ :=
  if h : l = [] then none
  else
    let idx := find_nearest_idx l v
    let cur := l.getD idx 0
    if pyGetPrev l idx < cur then
      match l.get? (idx + 1) with
      | some next =>
          if cur < next then some idx
          else find_nearest_idx_rising (l.drop (idx + 1)) v
      | none => none
    else find_nearest_idx_rising (l.drop (idx + 1)) v
termination_by l.length
decreasing_by
  all_goals
    simp only [List.length_drop]
    have hl : 0 < l.length := List.length_pos.mpr h
    omega

/-- Composite Simpson rule with unit spacing, as
`scipy.integrate.simpson(y)` computes it for an odd number of samples
(one/zero samples give 0, two give the trapezoid value).  For even sample
counts `>= 4` SciPy applies a version-dependent correction to the last
interval, so the theorems below are stated at odd sample counts, where
every SciPy version agrees with this rule. -/
def simpson : List ℚ → ℚ
  | [] => 0
  | [_] => 0
  | [a, b] => (a + b) / 2
  | a :: b :: c :: rest => (a + 4 * b + c) / 3 + simpson (c :: rest)
termination_by l => l.length
decreasing_by simp

/-- Embedding of `waveform.percent_flicker`: `v_pp / v_max * 100`. -/
def percent_flicker (v_max v_pp : ℚ) : ℚ :=
  v_pp / v_max * 100

/-- Embedding of `waveform.flicker_index`: the list comprehension
`[i if i > v_avg else v_avg for i in one_period[:,1]]` followed by the
vectorised subtraction of `v_avg`, then the ratio of the two Simpson
integrals.  Division is the total `ℚ` division; the theorems below avoid
the zero-denominator case, where NumPy would produce `inf`/`nan`. -/
def flicker_index (one_period : List ℚ) (v_avg : ℚ) : ℚ :=
  let curve_top := one_period.map (fun i => if v_avg < i then i else v_avg)
  let curve_top' := curve_top.map (fun x => x - v_avg)
  simpson curve_top' / simpson one_period

/-- Embedding of `waveform.n_periods` on the 2D `(time, value)` row list.
`none` models an uncaught Python exception: `data[1,0]` on fewer than two
rows, `period / delta` with `delta = 0`, the (unused) read
`t_1 = data[idx_1,0]` out of range, a raise from the rising-edge search,
or `out[0,0]` on an empty slice. -/
def n_periods (data : List (ℚ × ℚ)) (v_avg period : ℚ)
    (num_periods : ℕ := 1) : Option (List (ℚ × ℚ)) :=
  match data with
  | d0 :: d1 :: _ =>
    let t_0 := d0.1
    let delta := d1.1 - t_0
    if delta = 0 then none
    else
      let idx_1 : Int := pyInt (period / delta)
      match pyGetPair data idx_1 with
      | none => none
      | some _ =>
        match find_nearest_idx_rising (data.map Prod.snd) v_avg with
        | none => none
        | some idx_avg =>
          let out := pySlice data idx_avg (idx_avg + num_periods * idx_1)
          match out with
          | [] => none
          | o0 :: _ => some (out.map (fun p => (p.1 - o0.1, p.2)))
  | _ => none

/-! ### Simpson-rule facts used for the flicker-index bounds -/

/-- The Simpson quadrature of a pointwise non-negative sample list is
non-negative (all quadrature weights are positive). -/
theorem simpson_nonneg (l : List ℚ) (h : ∀ x ∈ l, 0 ≤ x) : 0 ≤ simpson l := by
  induction l using simpson.induct with
  | case1 => simp [simpson]
  | case2 a => simp [simpson]
  | case3 a b =>
    simp only [simpson]
    have ha := h a (by simp)
    have hb := h b (by simp)
    positivity
  | case4 a b c rest ih =>
    simp only [simpson]
    have ha := h a (by simp)
    have hb := h b (by simp)
    have hc := h c (by simp)
    have hr : 0 ≤ simpson (c :: rest) :=
      ih (fun x hx => h x (by simp at hx; rcases hx with h' | h' <;> simp [h']))
    have h3 : 0 ≤ (a + 4 * b + c) / 3 := by positivity
    linarith

/-- Mapping each sample to something pointwise no larger cannot increase
the Simpson quadrature (monotonicity from positive weights). -/
theorem simpson_map_le (f : ℚ → ℚ) (l : List ℚ) (h : ∀ x ∈ l, f x ≤ x) :
    simpson (l.map f) ≤ simpson l := by
  induction l using simpson.induct with
  | case1 => simp [simpson]
  | case2 a => simp [simpson]
  | case3 a b =>
    simp only [List.map_cons, List.map_nil, simpson]
    have ha := h a (by simp)
    have hb := h b (by simp)
    linarith
  | case4 a b c rest ih =>
    simp only [List.map_cons, simpson]
    have ha := h a (by simp)
    have hb := h b (by simp)
    have hc := h c (by simp)
    have hr : simpson ((c :: rest).map f) ≤ simpson (c :: rest) :=
      ih (fun x hx => h x (by simp at hx; rcases hx with h' | h' <;> simp [h']))
    simp only [List.map_cons] at hr
    linarith

/-! ### Claims C2, C3, C5, C7, C8 -/

/-- C2 (counterexample): for the one-period sample list `[1, -1, -1]` with
`v_avg = 0` the Simpson integral of the raw values is `-4/3 ≤ 0`, yet
`waveform.flicker_index` has no guard on the denominator: it performs the
division and returns `-1/4`, not `0.0`. -/
theorem flicker_index_no_denominator_guard_cex :
    simpson [1, -1, -1] = -(4 / 3) ∧ simpson [1, -1, -1] ≤ 0 ∧
      flicker_index [1, -1, -1] 0 = -(1 / 4) ∧
      flicker_index [1, -1, -1] 0 ≠ 0 := by
  norm_num [simpson, flicker_index]

/-- C3 (evaluation at the failing input): on values `[5, 3, 1, 3, 5]` with
`v_avg = 3`, the nearest index 1 is a falling edge, the recursion searches
the tail `[1, 3, 5]` and returns its local index 1 without adding the
slice offset back, so `find_nearest_idx_rising` answers 1 — an index that
is not a rising edge of the original array (`value[0] = 5 > 3 = value[1]`;
the rising-edge occurrence of 3 is at index 3).  `n_periods` consequently
slices from original index 1, starting the period on a falling edge. -/
theorem find_nearest_idx_rising_offset_cex :
    find_nearest_idx_rising [5, 3, 1, 3, 5] 3 = some 1 ∧
      ¬ ([5, 3, 1, 3, 5] : List ℚ).getD 1 0 > ([5, 3, 1, 3, 5] : List ℚ).getD 0 0 ∧
      (([5, 3, 1, 3, 5] : List ℚ).getD 3 0 > ([5, 3, 1, 3, 5] : List ℚ).getD 2 0 ∧
        ([5, 3, 1, 3, 5] : List ℚ).getD 3 0 < ([5, 3, 1, 3, 5] : List ℚ).getD 4 0) ∧
      n_periods [(0, 5), (1, 3), (2, 1), (3, 3), (4, 5)] 3 2 1
        = some [(0, 3), (1, 1)] := by
  refine ⟨?_, by norm_num, by norm_num, ?_⟩
  · rw [find_nearest_idx_rising]
    norm_num [find_nearest_idx, List.range_succ, pyGetPrev]
    rw [find_nearest_idx_rising]
    norm_num [find_nearest_idx, List.range_succ, pyGetPrev, List.cons_ne_nil]
  · rw [n_periods]
    norm_num [pyInt, pyGetPair, pySlice, pyStop]
    rw [find_nearest_idx_rising]
    norm_num [find_nearest_idx, List.range_succ, pyGetPrev]
    rw [find_nearest_idx_rising]
    norm_num [find_nearest_idx, List.range_succ, pyGetPrev, List.cons_ne_nil,
      pySlice, pyStop, show ((3 : ℤ).toNat) = 3 from rfl]

/-- Auxiliary: a Python slice `l[a:b]` whose stop lies at or beyond the end
of the list is just `l.drop a`. -/
theorem pySlice_of_long (l : List (ℚ × ℚ)) (a : ℕ) (b : ℤ) (h0 : 0 ≤ b)
    (hb : (l.length : ℤ) ≤ b) : pySlice l a b = l.drop a := by
  unfold pySlice pyStop
  rw [if_neg (not_lt.2 h0), max_eq_left h0, min_eq_right hb, Int.toNat_natCast,
    List.take_length]

/-- C5 (amended): when the samples remaining from the start index `i`
found by the rising-edge search are fewer than
`num_periods * idx_1` (with `idx_1 = int(period / delta)`), `n_periods`
does not fail: the NumPy slice clamps at the end of the array and the
function returns a shorter slice containing exactly the
`data.length - i` remaining rows. -/
theorem n_periods_clamps (d0 d1 : ℚ × ℚ) (rest : List (ℚ × ℚ))
    (v_avg period : ℚ) (num : ℕ) (i : ℕ) (t : ℚ × ℚ)
    (hdelta : d1.1 - d0.1 ≠ 0)
    (ht : pyGetPair (d0 :: d1 :: rest) (pyInt (period / (d1.1 - d0.1))) = some t)
    (hfind : find_nearest_idx_rising ((d0 :: d1 :: rest).map Prod.snd) v_avg
        = some i)
    (hidx : 0 ≤ pyInt (period / (d1.1 - d0.1)))
    (hi : i < (d0 :: d1 :: rest).length)
    (hshort : ((d0 :: d1 :: rest).length : ℤ)
        < i + num * pyInt (period / (d1.1 - d0.1))) :
    (n_periods (d0 :: d1 :: rest) v_avg period num).map List.length
      = some ((d0 :: d1 :: rest).length - i) := by
  have hb0 : (0 : ℤ) ≤ i + num * pyInt (period / (d1.1 - d0.1)) := by positivity
  have hslice : pySlice (d0 :: d1 :: rest) i (i + num * pyInt (period / (d1.1 - d0.1)))
      = (d0 :: d1 :: rest).drop i :=
    pySlice_of_long _ _ _ hb0 (le_of_lt hshort)
  have hlen : ((d0 :: d1 :: rest).drop i).length = (d0 :: d1 :: rest).length - i :=
    List.length_drop _ _
  have hpos : 0 < ((d0 :: d1 :: rest).drop i).length := by
    rw [hlen]; omega
  obtain ⟨o0, tl, hout⟩ : ∃ o0 tl, (d0 :: d1 :: rest).drop i = o0 :: tl := by
    cases hc : (d0 :: d1 :: rest).drop i with
    | nil => rw [hc] at hpos; simp at hpos
    | cons o0 tl => exact ⟨o0, tl, rfl⟩
  simp only [n_periods, if_neg hdelta, ht, hfind, hslice, hout]
  simp only [Option.map_some', List.length_map, ← hout, hlen]

/-- C5 (counterexample): for the waveform `[(0,1),(1,3),(2,5),(3,3),(4,1)]`
with `v_avg = 3`, `period = 3` and `num_periods = 2`, the requested slice
needs `2 * 3 = 6` samples from start index 1 but only 4 remain;
`n_periods` does not raise any error — it returns the clamped 4-row
slice. -/
theorem n_periods_short_slice_cex :
    n_periods [(0, 1), (1, 3), (2, 5), (3, 3), (4, 1)] 3 3 2
        = some [(0, 3), (1, 5), (2, 3), (3, 1)] ∧
      ([(0, 3), (1, 5), (2, 3), (3, 1)] : List (ℚ × ℚ)).length = 4 ∧
      4 < 2 * 3 := by
  refine ⟨?_, by norm_num, by norm_num⟩
  rw [n_periods]
  norm_num [pyInt, pyGetPair, pySlice, pyStop]
  rw [find_nearest_idx_rising]
  norm_num [find_nearest_idx, List.range_succ, pyGetPrev, List.cons_ne_nil,
    pySlice, pyStop, show ((5 : ℤ).toNat) = 5 from rfl]

/-- C5 (witness): the clamping theorem instantiated on the concrete
waveform of the counterexample: 4 of the requested 6 rows come back. -/
theorem n_periods_clamps_witness :
    (n_periods [(0, 1), (1, 3), (2, 5), (3, 3), (4, 1)] 3 3 2).map List.length
      = some 4 := by
  have h := n_periods_clamps (0, 1) (1, 3) [(2, 5), (3, 3), (4, 1)] 3 3 2 1 (3, 3)
    (by norm_num)
    (by norm_num [pyGetPair, pyInt, show ((3 : ℤ).toNat) = 3 from rfl])
    (by
      rw [find_nearest_idx_rising]
      norm_num [find_nearest_idx, List.range_succ, pyGetPrev, List.cons_ne_nil])
    (by norm_num [pyInt]) (by norm_num) (by norm_num [pyInt])
  simpa using h

/-- C7 (counterexample): the samples `[1, -1, -1]` all lie in
`[v_min, v_max] = [-1, 1]` and `v_avg = 0` is their midrange, but
`flicker_index` evaluates to `-1/4`, outside `[0, 1]` (the raw-value
Simpson denominator is negative). -/
theorem flicker_index_unit_interval_cex :
    (∀ v ∈ ([1, -1, -1] : List ℚ), -1 ≤ v ∧ v ≤ 1) ∧
      ((0 : ℚ) = (1 + -1) / 2) ∧
      flicker_index [1, -1, -1] 0 = -(1 / 4) ∧
      ¬ (0 ≤ flicker_index [1, -1, -1] 0) := by
  refine ⟨?_, by norm_num, ?_, ?_⟩
  · intro v hv
    simp only [List.mem_cons, List.not_mem_nil, or_false] at hv
    rcases hv with h | h | h <;> norm_num [h]
  · norm_num [flicker_index, simpson]
  · norm_num [flicker_index, simpson]

/-- C7 (amended): for non-negative samples and a non-negative `v_avg`
(as holds for light-output waveforms, where `v_avg` is the midrange of
non-negative samples), and a positive raw-value Simpson integral, the
flicker index lies in `[0, 1]`.  The sample count is required to be odd so
that the embedded `simpson` coincides with every SciPy version. -/
theorem flicker_index_mem_unit_interval (l : List ℚ) (v_avg : ℚ)
    (hodd : Odd l.length) (hnn : ∀ v ∈ l, 0 ≤ v) (havg : 0 ≤ v_avg)
    (hden : 0 < simpson l) :
    0 ≤ flicker_index l v_avg ∧ flicker_index l v_avg ≤ 1 := by
  simp only [flicker_index, List.map_map]
  set f : ℚ → ℚ := (fun x => x - v_avg) ∘ fun i => if v_avg < i then i else v_avg
    with hf
  have hf_nonneg : ∀ v ∈ l, 0 ≤ f v := by
    intro v hv
    simp only [hf, Function.comp_apply]
    split_ifs with h
    · linarith
    · linarith
  have hf_le : ∀ v ∈ l, f v ≤ v := by
    intro v hv
    have hv0 := hnn v hv
    simp only [hf, Function.comp_apply]
    split_ifs with h
    · linarith
    · linarith
  have hnum_nonneg : 0 ≤ simpson (l.map f) := by
    apply simpson_nonneg
    intro x hx
    obtain ⟨v, hv, rfl⟩ := List.mem_map.mp hx
    exact hf_nonneg v hv
  have hnum_le : simpson (l.map f) ≤ simpson l := simpson_map_le f l hf_le
  constructor
  · exact div_nonneg hnum_nonneg (le_of_lt hden)
  · exact (div_le_one hden).2 hnum_le

/-- C7 (witness): the unit-interval bound instantiated on the
non-negative one-period list `[2, 1, 1]` with midrange `v_avg = 3/2`. -/
theorem flicker_index_mem_unit_interval_witness :
    0 ≤ flicker_index [2, 1, 1] (3 / 2) ∧ flicker_index [2, 1, 1] (3 / 2) ≤ 1 :=
  flicker_index_mem_unit_interval [2, 1, 1] (3 / 2) (by decide)
    (by intro v hv; simp only [List.mem_cons, List.not_mem_nil, or_false] at hv
        rcases hv with h | h | h <;> norm_num [h])
    (by norm_num) (by norm_num [simpson])

/-- C8: `percent_flicker = v_pp / v_max * 100` is invariant under scaling
both arguments by any `k > 0`. -/
theorem percent_flicker_scale_invariant (v_max v_pp k : ℚ) (hmax : v_max ≠ 0)
    (hk : 0 < k) :
    percent_flicker (k * v_max) (k * v_pp) = percent_flicker v_max v_pp := by
  unfold percent_flicker
  rw [mul_div_mul_left _ _ (ne_of_gt hk)]

/-- C8 (witness): scale invariance at `v_max = 10`, `v_pp = 3`, `k = 2`. -/
theorem percent_flicker_scale_invariant_witness :
    percent_flicker (2 * 10) (2 * 3) = percent_flicker 10 3 :=
  percent_flicker_scale_invariant 10 3 2 (by norm_num) (by norm_num)

/-! ### flask_app/modules/flicker_analysis.py -/

/-- NumPy `np.sign`. -/
def npSign (x : ℚ) : ℚ :=
  if 0 < x then 1 else if x < 0 then -1 else 0

/-- NumPy `np.diff`: successive differences `l[i+1] - l[i]`. -/
def npDiff (l : List ℚ) : List ℚ :=
  List.zipWith (fun a b => b - a) l l.tail

/-- NumPy `np.mean`: sum over length.  On the empty list the `ℚ` division
gives `0` where NumPy produces `nan`; the development only uses non-empty
lists here. -/
def npMean (l : List ℚ) : ℚ :=
  l.sum / l.length

/-- NumPy `np.median`: the middle element of the sorted data, or the
average of the two middle elements when the length is even. -/
def npMedian (l : List ℚ) : ℚ :=
  let s := l.insertionSort (· ≤ ·)
  if l.length % 2 = 1 then s.getD (l.length / 2) 0
  else (s.getD (l.length / 2 - 1) 0 + s.getD (l.length / 2) 0) / 2

/-- Population variance, the square of NumPy `np.std` (`ddof = 0`). -/
def npVariance (l : List ℚ) : ℚ :=
  (l.map (fun x => (x - npMean l) ^ 2)).sum / l.length

/-- The crossing positions `np.where(np.diff(np.sign(values)))[0]`: indices
`i` at which the sign of the centred signal changes between `values[i]`
and `values[i+1]`. -/
def zero_crossings (values : List ℚ) : List ℕ :=
  (List.range (values.length - 1)).filter
    (fun i => decide (npSign (values.getD i 0) ≠ npSign (values.getD (i + 1) 0)))

/-- The successive crossing intervals
`np.diff(zero_crossings)` of `_improved_zero_crossing_detection`. -/
def crossing_intervals (values : List ℚ) : List ℚ :=
  npDiff ((zero_crossings values).map (fun i => (i : ℚ)))

/-- The retained intervals of `_improved_zero_crossing_detection`:
`crossing_intervals[np.abs(crossing_intervals - median) < 2 * np.std(...)]`.
The comparison is encoded square-free as
`(x - median)^2 < 4 * variance`, which is equivalent to
`|x - median| < 2 * std` since both sides of the original comparison are
non-negative and squaring is strictly monotone there. -/
def valid_intervals (values : List ℚ) : List ℚ :=
  (crossing_intervals values).filter
    (fun x => decide ((x - npMedian (crossing_intervals values)) ^ 2
      < 4 * npVariance (crossing_intervals values)))

/-- Embedding of `FlickerAnalyzer._improved_zero_crossing_detection`.  The
local NumPy arrays become the parameterised definitions above; the guard
order (`< 4` crossings, empty retained set, the `[10, 1000]` range check)
follows the Python source.  No statement in the `try` body can raise for
the inputs reaching it (the mean of the non-empty retained set is at least
1), so the `except` branch is unreachable. -/
def improved_zero_crossing_detection (values : List ℚ) (framerate : ℚ) :
    Option ℚ :=
  if (zero_crossings values).length < 4 then none
  else if valid_intervals values = [] then none
  else
    let frequency := framerate / (2 * npMean (valid_intervals values))
    if 10 ≤ frequency ∧ frequency ≤ 1000 then some frequency else none

/-- Embedding of `FlickerAnalyzer._find_rising_edge`: the first index
`i ≥ 1` with `values[i-1] <= threshold < values[i]`, else 0. -/
def find_rising_edge (values : List ℚ) (threshold : ℚ) : ℕ :=
  match (List.range values.length).find?
      (fun i => decide (1 ≤ i) && decide (values.getD (i - 1) 0 ≤ threshold)
        && decide (threshold < values.getD i 0)) with
  | some i => i
  | none => 0

/-- The `(area_above, area_below)` pair computed by
`FlickerAnalyzer._calculate_flicker_index` before its guard; `none` models
the statements whose exceptions the enclosing `try/except` catches:
`1 / freq` with `freq = 0`, `period / time_per_sample` with a zero sample
spacing, and `data[1, 0]` on fewer than two rows. -/
def flicker_areas (data : List (ℚ × ℚ)) (v_avg freq : ℚ) : Option (ℚ × ℚ) :=
  match data with
  | d0 :: d1 :: _ =>
    if freq = 0 then none
    else
      let period := 1 / freq
      let time_per_sample := d1.1 - d0.1
      if time_per_sample = 0 then none
      else
        let samples_per_period : ℤ := pyInt (period / time_per_sample)
        let start_idx := find_rising_edge (data.map Prod.snd) v_avg
        let end_idx : ℤ := min ((start_idx : ℤ) + samples_per_period)
          (data.length : ℤ)
        let values := (pySlice data start_idx end_idx).map Prod.snd
        let area_above :=
          ((values.filter (fun v => decide (v_avg < v))).map
            (fun v => v - v_avg)).sum
        let area_below :=
          ((values.filter (fun v => decide (v < v_avg))).map
            (fun v => v_avg - v)).sum
        some (area_above, area_below)
  | _ => none

/-- Embedding of `FlickerAnalyzer._calculate_flicker_index`: the division
is guarded by `total_area > 0`, and both the `else` branch of that guard
and the `except` branch (`none` areas) return `0.0`. -/
def calculate_flicker_index (data : List (ℚ × ℚ)) (v_avg freq : ℚ) : ℚ :=
  match flicker_areas data v_avg freq with
  | none => 0
  | some (area_above, area_below) =>
    if 0 < area_above + area_below then
      (area_above - area_below) / (area_above + area_below)
    else 0

/-- The harmonic test inside `_find_fundamental_frequency`'s suppression
loop: `freq` counts as a harmonic of `lower` when it lies within 10 % of
`2×`–`6×` of it.  For `lower = 0` the Python float division raises
`ZeroDivisionError`, which the enclosing `try` converts into the
`min(candidates)` fallback; the total `ℚ` division (`x / 0 = 0`) instead
marks the candidate as a harmonic — either route leaves the function's
value at the minimum of the candidates, the fact proved below. -/
def is_harmonic_of (freq lower : ℚ) : Bool :=
  [(2 : ℚ), 3, 4, 5, 6].any
    (fun h => decide (|freq - lower * h| / (lower * h) < 0.1))

/-- The `fundamental_candidates` list built by
`_find_fundamental_frequency`: fold over the ascending candidates,
appending each one that is not within 10 % of a multiple of an already
retained (hence lower) candidate. -/
def fundamental_candidates (sorted_list : List ℚ) : List ℚ :=
  sorted_list.foldl
    (fun fc freq =>
      if fc.any (fun lower => is_harmonic_of freq lower) then fc
      else fc ++ [freq]) []

/-- Python `min` over the non-empty list `a :: l`. -/
def listMin (a : ℚ) (l : List ℚ) : ℚ :=
  l.foldl min a

/-- Embedding of `FlickerAnalyzer._find_fundamental_frequency`.  Python's
`min([])` raises `ValueError`, which the `except` branch turns into
`min(candidates) if candidates else 120.0`; for the empty input this is
the fixed `120.0`.  `sorted(candidates)` is the stable sort
`insertionSort`. -/
def find_fundamental_frequency : List ℚ → ℚ
  | [] => 120
  | c :: cs =>
    if cs = [] then c
    else
      match fundamental_candidates ((c :: cs).insertionSort (· ≤ ·)) with
      | [] => listMin c cs
      | f :: fs => listMin f fs

/-- Embedding of the candidate-collection and consensus step of
`FlickerAnalyzer._detect_flicker_frequency` (its lines after the three
detection methods ran): gather the non-`None` method results in order
FFT, autocorrelation, zero-crossing; an empty collection yields the
documented fallback `120.0`.  The FFT and autocorrelation methods
themselves live behind SciPy FFT/peak-finding machinery and enter the
model only through their `Option ℚ` results. -/
def detect_flicker_frequency (fft_freq autocorr_freq zero_cross_freq :
    Option ℚ) : ℚ :=
  let candidates := [fft_freq, autocorr_freq, zero_cross_freq].filterMap id
  if candidates = [] then 120
  else find_fundamental_frequency candidates

/-- Python slice `l[a:b]` on a 1D array with both bounds as Python ints:
a negative bound counts from the end and both are clamped to `[0, n]`. -/
def pySliceQ (l : List ℚ) (a b : Int) : List ℚ :=
  (l.take (pyStop l.length b)).drop (pyStop l.length a)

/-- NumPy `np.argmax`: the first index attaining the maximum (subsequent
equal values do not replace the current best). -/
def argmaxQ (l : List ℚ) : ℕ :=
  (List.range l.length).foldl
    (fun best i => if l.getD best 0 < l.getD i 0 then i else best) 0

/-- The non-negative-lag half `autocorr[autocorr.size // 2:]` of
`np.correlate(v, v, mode='full')`: entry `j` is the lag-`j` correlation
`Σ_i v[i] * v[i+j]` for `0 ≤ i < n - j`. -/
def autocorrNonneg (v : List ℚ) : List ℚ :=
  (List.range v.length).map (fun j =>
    ((List.range (v.length - j)).map
      (fun i => v.getD i 0 * v.getD (i + j) 0)).sum)

/-- The plateau scan inside SciPy `_local_maxima_1d`: starting at `start`,
the first index that reaches `iMax` or holds a value different from
`v`. -/
def plateauEnd (x : List ℚ) (v : ℚ) (iMax start : ℕ) : ℕ :=
  if h : start < iMax ∧ x.getD start 0 = v then plateauEnd x v iMax (start + 1)
  else start
termination_by iMax - start
decreasing_by omega

/-- Auxiliary: the plateau scan never moves backwards. -/
theorem plateauEnd_ge (x : List ℚ) (v : ℚ) (iMax : ℕ) :
    ∀ start, start ≤ plateauEnd x v iMax start := by
  have key : ∀ d start, iMax - start ≤ d → start ≤ plateauEnd x v iMax start := by
    intro d
    induction d with
    | zero =>
      intro start h
      rw [plateauEnd]
      split
      · next hc => exact absurd hc.1 (by omega)
      · exact le_rfl
    | succ m ih =>
      intro start h
      rw [plateauEnd]
      split
      · next hc => exact le_trans (by omega) (ih (start + 1) (by omega))
      · exact le_rfl
  exact fun start => key (iMax - start) start le_rfl

/-- The scan loop of SciPy `_local_maxima_1d` over `1 ≤ i < n - 1`: a
local maximum starts where `x[i-1] < x[i]` and the plateau of values
equal to `x[i]` ends, before the last sample, in a strictly smaller
value; the plateau midpoint is recorded and the scan resumes one past
the plateau end (`i = i_ahead` followed by the loop's `i += 1`). -/
def localMaximaAux (x : List ℚ) (iMax : ℕ) (i : ℕ) : List ℕ :=
  if hi : i < iMax then
    if x.getD (i - 1) 0 < x.getD i 0 then
      let iAhead := plateauEnd x (x.getD i 0) iMax (i + 1)
      if x.getD iAhead 0 < x.getD i 0 then
        (i + (iAhead - 1)) / 2 :: localMaximaAux x iMax (iAhead + 1)
      else localMaximaAux x iMax (i + 1)
    else localMaximaAux x iMax (i + 1)
  else []
termination_by iMax - i
decreasing_by
  · have := plateauEnd_ge x (x.getD i 0) iMax (i + 1)
    omega
  · omega
  · omega

/-- SciPy `_local_maxima_1d(x)`: plateau midpoints of the strict interior
local maxima. -/
def local_maxima (x : List ℚ) : List ℕ :=
  localMaximaAux x (x.length - 1) 1

/-- NumPy boolean-mask selection `peaks[keep]`. -/
def applyMask (peaks : List ℕ) (mask : List Bool) : List ℕ :=
  (peaks.zip mask).filterMap (fun p => if p.2 then some p.1 else none)

/-- SciPy `_select_by_peak_distance(peaks, priority, distance)`: walk the
positions in decreasing priority; each still-kept position deletes every
other position whose peak index is closer than `distance`.  `peaks` is
ascending, so deleting all `k` with `|peaks[k] - peaks[j]| < distance`
equals SciPy's two contiguous while-scans around `j`.  NumPy's `argsort`
order among equal priorities is implementation-defined; the embedding
uses the stable order. -/
def selectByPeakDistance (peaks : List ℕ) (priority : List ℚ)
    (distance : ℤ) : List Bool :=
  let order := (List.range peaks.length).insertionSort
    (fun i j => priority.getD i 0 ≤ priority.getD j 0)
  order.reverse.foldl
    (fun keep j =>
      if keep.getD j false then
        keep.mapIdx (fun k b =>
          if k ≠ j ∧ |(peaks.getD k 0 : ℤ) - (peaks.getD j 0 : ℤ)| < distance
          then false else b)
      else keep)
    (List.replicate peaks.length true)

/-- SciPy `scipy.signal.find_peaks(x, height=h, distance=d)` restricted
to the two conditions the source passes: local maxima, then the height
filter `x[peak] >= h`, then distance pruning.  `none` models the
`ValueError` SciPy raises when `distance < 1`. -/
def find_peaks (x : List ℚ) (height : ℚ) (distance : ℤ) :
    Option (List ℕ) :=
  if distance < 1 then none
  else
    let peaks := (local_maxima x).filter (fun p => decide (height ≤ x.getD p 0))
    some (applyMask peaks
      (selectByPeakDistance peaks (peaks.map (fun p => x.getD p 0)) distance))

/-- Embedding of `FlickerAnalyzer._improved_autocorrelation_detection`.
`none` models the paths on which the `try` body raises and the `except`
returns `None`: `np.correlate` on the empty array, SciPy's `ValueError`
for a peak distance `min_period_samples // 2` below 1, and the
`ZeroDivisionError` of `framerate / period_samples` when the period is
zero.  `int()` is truncation (`pyInt`), Python's `//` on ints is floor
division (`Int.fdiv`), and the slice
`autocorr[min_period_samples:max_period_samples]` follows Python slice
semantics (`pySliceQ`). -/
def improved_autocorrelation_detection (values : List ℚ)
    (framerate : ℚ) : Option ℚ :=
  if values = [] then none
  else
    let values_norm := values.map (fun v => v - npMean values)
    let ac0 := autocorrNonneg values_norm
    let autocorr :=
      if ac0.getD 0 0 ≠ 0 then ac0.map (fun a => a / ac0.getD 0 0) else ac0
    let min_period_samples : ℤ := pyInt (framerate / 1000)
    let max_period_samples : ℤ :=
      if (autocorr.length : ℤ) ≤ pyInt (framerate / 10) then
        (autocorr.length : ℤ) - 1
      else pyInt (framerate / 10)
    let search_range := pySliceQ autocorr min_period_samples max_period_samples
    if search_range = [] then none
    else
      match find_peaks search_range 0.1 (Int.fdiv min_period_samples 2) with
      | none => none
      | some peaks =>
        let peak_idx : ℤ :=
          if peaks = [] then (argmaxQ search_range : ℤ) else (peaks.headD 0 : ℤ)
        let period_samples := peak_idx + min_period_samples
        if period_samples = 0 then none
        else
          let frequency := framerate / (period_samples : ℚ)
          if 10 ≤ frequency ∧ frequency ≤ 1000 then some frequency else none

/-! ### Claims C2 (amended part), C4, C9, C10 -/

/-- C2 (amended): the Flask `_calculate_flicker_index` — unlike
`waveform.flicker_index` — guards its division: whenever the computed
total area (its denominator, a sum of absolute deviations rather than a
Simpson integral) is `≤ 0`, it returns `0.0` without dividing. -/
theorem calculate_flicker_index_guard (data : List (ℚ × ℚ))
    (v_avg freq a b : ℚ) (h : flicker_areas data v_avg freq = some (a, b))
    (hle : a + b ≤ 0) : calculate_flicker_index data v_avg freq = 0 := by
  simp only [calculate_flicker_index, h, if_neg (not_lt.2 hle)]

/-- C2 (witness): the guard instantiated on a flat three-row waveform,
whose areas above and below the average are both 0. -/
theorem calculate_flicker_index_guard_witness :
    calculate_flicker_index [(0, 1), (1, 1), (2, 1)] 1 1 = 0 :=
  calculate_flicker_index_guard [(0, 1), (1, 1), (2, 1)] 1 1 0 0
    (by norm_num [flicker_areas, find_rising_edge, pyInt, pySlice, pyStop,
      List.range_succ])
    (by norm_num)

/-- Auxiliary: every position of `List.replicate` holds the replicated
value. -/
theorem getD_replicate_self (n : ℕ) (c : ℚ) (j : ℕ) (hj : j < n) :
    (List.replicate n c).getD j 0 = c := by
  induction n generalizing j with
  | zero => omega
  | succ m ih =>
    cases j with
    | zero => simp [List.replicate_succ]
    | succ k =>
      simp only [List.replicate_succ, List.getD_cons_succ]
      exact ih k (by omega)

/-- Auxiliary: a constant signal has no sign changes, so its crossing
list is empty. -/
theorem zero_crossings_replicate (n : ℕ) (c : ℚ) :
    zero_crossings (List.replicate n c) = [] := by
  unfold zero_crossings
  rw [List.filter_eq_nil_iff]
  intro i hi
  have hi' : i < n - 1 := by
    have h' := List.mem_range.mp hi
    rwa [List.length_replicate] at h'
  rw [getD_replicate_self n c i (by omega),
    getD_replicate_self n c (i + 1) (by omega)]
  simp

/-- C4 (amended): the consensus step of `_detect_flicker_frequency`
returns exactly the documented fallback `120.0` precisely for inputs on
which no detection method produced an in-range candidate; and on a
degenerate flat waveform (all values equal) the zero-crossing method
indeed produces no candidate, since a constant signal has no sign
changes.  A flat waveform is nonetheless not such an input: the
autocorrelation method still yields an in-range candidate there (see the
counterexample below), so the estimator does not fall back to 120 Hz on
flat input. -/
theorem detect_flicker_frequency_fallback :
    (∀ fft ac zc : Option ℚ, fft = none → ac = none → zc = none →
      detect_flicker_frequency fft ac zc = 120) ∧
    (∀ (n : ℕ) (c framerate : ℚ),
      improved_zero_crossing_detection (List.replicate n c) framerate
        = none) := by
  constructor
  · rintro fft ac zc rfl rfl rfl
    simp [detect_flicker_frequency]
  · intro n c framerate
    unfold improved_zero_crossing_detection
    rw [zero_crossings_replicate]
    simp

/-- C4 (witness): the fallback applied to empty method results, and the
zero-crossing method applied to a concrete flat waveform of five samples
of value 3 at 100 Hz sample rate. -/
theorem detect_flicker_frequency_fallback_witness :
    detect_flicker_frequency none none none = 120 ∧
      improved_zero_crossing_detection (List.replicate 5 3) 100 = none :=
  ⟨detect_flicker_frequency_fallback.1 none none none rfl rfl rfl,
   detect_flicker_frequency_fallback.2 5 3 100⟩

/-- Auxiliary: reading any position of an all-zero list (with default 0)
gives 0. -/
theorem getD_replicate_zero (n k : ℕ) :
    (List.replicate n (0 : ℚ)).getD k 0 = 0 := by
  induction n generalizing k with
  | zero => simp
  | succ m ih =>
    cases k with
    | zero => simp [List.replicate_succ]
    | succ j =>
      simp only [List.replicate_succ, List.getD_cons_succ]
      exact ih j

/-- Auxiliary: the mean of a non-empty constant list is the constant. -/
theorem npMean_replicate (n : ℕ) (c : ℚ) (hn : n ≠ 0) :
    npMean (List.replicate n c) = c := by
  unfold npMean
  rw [List.sum_replicate, List.length_replicate, nsmul_eq_mul]
  have h : (n : ℚ) ≠ 0 := Nat.cast_ne_zero.mpr hn
  field_simp

/-- Auxiliary: the autocorrelation of the zero signal is identically
zero. -/
theorem autocorrNonneg_zero (n : ℕ) :
    autocorrNonneg (List.replicate n 0) = List.replicate n 0 := by
  have hlen : (autocorrNonneg (List.replicate n (0 : ℚ))).length = n := by
    simp [autocorrNonneg]
  have hall : ∀ b ∈ autocorrNonneg (List.replicate n (0 : ℚ)), b = 0 := by
    intro b hb
    obtain ⟨j, hj, rfl⟩ := List.mem_map.mp hb
    apply List.sum_eq_zero
    intro y hy
    obtain ⟨i, hi, rfl⟩ := List.mem_map.mp hy
    rw [getD_replicate_zero, getD_replicate_zero, mul_zero]
  calc autocorrNonneg (List.replicate n 0)
      = List.replicate (autocorrNonneg (List.replicate n (0 : ℚ))).length 0 :=
        List.eq_replicate_length.mpr hall
    _ = List.replicate n 0 := by rw [hlen]

/-- Auxiliary: on a signal on which no value is strictly below another,
the local-maxima scan records nothing. -/
theorem localMaximaAux_of_const (x : List ℚ)
    (hconst : ∀ i j : ℕ, ¬ x.getD i 0 < x.getD j 0) :
    ∀ iMax i, localMaximaAux x iMax i = [] := by
  intro iMax
  have key : ∀ d i, iMax - i ≤ d → localMaximaAux x iMax i = [] := by
    intro d
    induction d with
    | zero =>
      intro i h
      rw [localMaximaAux]
      rw [dif_neg (by omega : ¬ i < iMax)]
    | succ m ih =>
      intro i h
      rw [localMaximaAux]
      by_cases hi : i < iMax
      · rw [dif_pos hi, if_neg (hconst (i - 1) i)]
        exact ih (i + 1) (by omega)
      · rw [dif_neg hi]
  exact fun i => key (iMax - i) i le_rfl

/-- Auxiliary: the argmax of an all-zero list is its first index. -/
theorem argmaxQ_replicate_zero (m : ℕ) :
    argmaxQ (List.replicate m 0) = 0 := by
  unfold argmaxQ
  have key : ∀ (L : List ℕ) (b : ℕ),
      L.foldl (fun best i =>
        if (List.replicate m (0 : ℚ)).getD best 0
            < (List.replicate m (0 : ℚ)).getD i 0
        then i else best) b = b := by
    intro L
    induction L with
    | nil => intro b; rfl
    | cons a L ih =>
      intro b
      simp only [List.foldl_cons]
      rw [if_neg]
      · exact ih b
      · rw [getD_replicate_zero, getD_replicate_zero]
        exact lt_irrefl 0
  exact key _ 0

/-- C4 (counterexample): a degenerate flat waveform is not an input on
which every method fails.  On 100 samples of the constant 3 at a 10 kHz
sample rate the zero-crossing method finds no candidate, but the
autocorrelation method does: its centred signal is identically zero, the
searched window `autocorr[10:99]` is all zeros, `find_peaks` finds no
peak there, and the `np.argmax` fallback converts the minimal searched
lag `int(framerate/1000) = 10` into `10000 / 10 = 1000.0` Hz, which
passes the inclusive `[10, 1000]` range check.  The consensus over a
candidate collection containing it returns 1000.0 — not the 120.0
fallback the claim asserts for flat waveforms. -/
theorem detect_flicker_frequency_flat_cex :
    improved_autocorrelation_detection (List.replicate 100 3) 10000
        = some 1000 ∧
      improved_zero_crossing_detection (List.replicate 100 3) 10000 = none ∧
      detect_flicker_frequency none (some 1000) none = 1000 ∧
      (1000 : ℚ) ≠ 120 := by
  refine ⟨?_, ?_, rfl, by norm_num⟩
  · have hnorm : (List.replicate 100 (3 : ℚ)).map
        (fun v => v - npMean (List.replicate 100 (3 : ℚ)))
          = List.replicate 100 0 := by
      rw [List.map_replicate, npMean_replicate 100 3 (by norm_num)]
      norm_num
    have hp1 : pyInt (10 : ℚ) = 10 := by norm_num [pyInt]
    have hp2 : pyInt (1000 : ℚ) = 1000 := by norm_num [pyInt]
    have hslice : pySliceQ (List.replicate 100 (0 : ℚ)) 10 99
        = List.replicate 89 0 := by
      unfold pySliceQ pyStop
      norm_num [show ((99 : ℤ).toNat) = 99 from rfl,
        show ((10 : ℤ).toNat) = 10 from rfl]
    have hlm : local_maxima (List.replicate 89 (0 : ℚ)) = [] := by
      unfold local_maxima
      exact localMaximaAux_of_const _
        (fun i j => by
          rw [getD_replicate_zero, getD_replicate_zero]
          exact lt_irrefl 0) _ _
    have hfp : find_peaks (List.replicate 89 (0 : ℚ)) (1 / 10)
        (Int.fdiv 10 2) = some [] := by
      unfold find_peaks
      rw [if_neg (by decide : ¬ Int.fdiv 10 2 < 1), hlm]
      simp [applyMask, selectByPeakDistance]
    have hargmax : argmaxQ (List.replicate 89 (0 : ℚ)) = 0 :=
      argmaxQ_replicate_zero 89
    norm_num only [improved_autocorrelation_detection, hnorm,
      autocorrNonneg_zero 100, getD_replicate_zero, List.length_replicate,
      List.replicate_eq_nil_iff]
    norm_num [hp1, hp2, hslice, hfp, hargmax]
  · unfold improved_zero_crossing_detection
    rw [zero_crossings_replicate]
    simp

/-- Auxiliary: the population variance of a list whose members all equal
`v` is zero. -/
theorem npVariance_of_const (l : List ℚ) (v : ℚ) (h : ∀ x ∈ l, x = v) :
    npVariance l = 0 := by
  cases hl : l with
  | nil => simp [npVariance, npMean]
  | cons y ys =>
    rw [← hl]
    have hlen : (0 : ℚ) < l.length := by
      rw [hl]; exact_mod_cast Nat.succ_pos ys.length
    have hmean : npMean l = v := by
      unfold npMean
      have hrep : l = List.replicate l.length v := List.eq_replicate_length.mpr h
      rw [hrep, List.sum_replicate, List.length_replicate, nsmul_eq_mul]
      rw [hrep, List.length_replicate] at hlen
      field_simp
    unfold npVariance
    rw [hmean]
    have hzero : (l.map (fun x => (x - v) ^ 2)).sum = 0 := by
      apply List.sum_eq_zero
      intro x hx
      obtain ⟨y', hy', rfl⟩ := List.mem_map.mp hx
      rw [h y' hy']
      ring
    rw [hzero, zero_div]

/-- C9 (amended): behaviour of the zero-crossing method.  With fewer than
4 sign changes it yields no candidate.  With at least 4 sign changes it
yields `framerate / (2 × mean of the retained intervals)` subject to the
`[10, 1000]` range check — but the retention test is the strict
`|x - median| < 2·std`, so when all crossing intervals are equal
(`std = 0`, a perfectly regular signal) every interval is discarded and
the method returns no candidate. -/
theorem improved_zero_crossing_detection_spec (values : List ℚ)
    (framerate : ℚ) :
    ((zero_crossings values).length < 4 →
      improved_zero_crossing_detection values framerate = none) ∧
    (4 ≤ (zero_crossings values).length →
      (∀ x ∈ crossing_intervals values,
        x = npMedian (crossing_intervals values)) →
      improved_zero_crossing_detection values framerate = none) ∧
    (4 ≤ (zero_crossings values).length → valid_intervals values ≠ [] →
      improved_zero_crossing_detection values framerate =
        (if 10 ≤ framerate / (2 * npMean (valid_intervals values)) ∧
            framerate / (2 * npMean (valid_intervals values)) ≤ 1000
          then some (framerate / (2 * npMean (valid_intervals values)))
          else none)) := by
  refine ⟨fun h4 => ?_, fun h4 hconst => ?_, fun h4 hvalid => ?_⟩
  · simp only [improved_zero_crossing_detection, if_pos h4]
  · have hvar : npVariance (crossing_intervals values) = 0 :=
      npVariance_of_const _ _ hconst
    have hvalid : valid_intervals values = [] := by
      unfold valid_intervals
      rw [List.filter_eq_nil_iff]
      intro x hx
      rw [hconst x hx, hvar]
      simp
    simp only [improved_zero_crossing_detection, if_neg (not_lt.2 h4),
      if_pos hvalid]
  · simp only [improved_zero_crossing_detection, if_neg (not_lt.2 h4),
      if_neg hvalid]

/-- C9 (counterexample): the centred signal `[1, -1, 1, -1, 1, -1]` at
sample rate 100 has 5 ≥ 4 sign changes and perfectly equal crossing
intervals `[1, 1, 1, 1]` (so no interval is farther than `2·std = 0` from
the median, and the claimed formula gives `100 / (2 × 1) = 50`, inside
`[10, 1000]`), yet the method returns no candidate: the strict `<` of the
retention test discards every interval when `std = 0`. -/
theorem improved_zero_crossing_equal_intervals_cex :
    improved_zero_crossing_detection [1, -1, 1, -1, 1, -1] 100 = none ∧
      4 ≤ (zero_crossings [1, -1, 1, -1, 1, -1]).length ∧
      crossing_intervals [1, -1, 1, -1, 1, -1] = [1, 1, 1, 1] ∧
      npMean [1, 1, 1, 1] = 1 ∧
      (10 : ℚ) ≤ 100 / (2 * npMean [1, 1, 1, 1]) ∧
      100 / (2 * npMean [1, 1, 1, 1]) ≤ 1000 := by
  have hz : zero_crossings [1, -1, 1, -1, 1, -1] = [0, 1, 2, 3, 4] := by
    norm_num [zero_crossings, npSign, List.range_succ]
  have hci : crossing_intervals [1, -1, 1, -1, 1, -1] = [1, 1, 1, 1] := by
    norm_num [crossing_intervals, hz, npDiff]
  have hmean : npMean ([1, 1, 1, 1] : List ℚ) = 1 := by
    norm_num [npMean]
  have hvalid : valid_intervals [1, -1, 1, -1, 1, -1] = [] := by
    norm_num [valid_intervals, hci, npMedian, npVariance, npMean,
      List.insertionSort, List.orderedInsert]
  refine ⟨?_, by rw [hz]; norm_num, hci, hmean, by rw [hmean]; norm_num,
    by rw [hmean]; norm_num⟩
  simp only [improved_zero_crossing_detection, hz, hvalid]
  norm_num

/-- C9 (witness): the three cases of the specification applied to concrete
signals: fewer than 4 crossings; equal intervals (regular signal); and an
irregular signal whose retained intervals are `[1, 1, 1]`, giving the
candidate `100 / 2 = 50`. -/
theorem improved_zero_crossing_detection_spec_witness :
    improved_zero_crossing_detection [1, 1, 1] 100 = none ∧
      improved_zero_crossing_detection [1, -1, 1, -1, 1, -1] 100 = none ∧
      improved_zero_crossing_detection [1, -1, 1, -1, 1, 1, -1] 100
        = some 50 := by
  refine ⟨?_, ?_, ?_⟩
  · exact (improved_zero_crossing_detection_spec [1, 1, 1] 100).1
      (by norm_num [zero_crossings, npSign, List.range_succ])
  · have hz : zero_crossings [1, -1, 1, -1, 1, -1] = [0, 1, 2, 3, 4] := by
      norm_num [zero_crossings, npSign, List.range_succ]
    exact (improved_zero_crossing_detection_spec [1, -1, 1, -1, 1, -1]
        100).2.1
      (by rw [hz]; norm_num)
      (by
        have hci : crossing_intervals [1, -1, 1, -1, 1, -1] = [1, 1, 1, 1] := by
          norm_num [crossing_intervals, hz, npDiff]
        rw [hci]
        norm_num [npMedian, List.insertionSort, List.orderedInsert])
  · have hz : zero_crossings [1, -1, 1, -1, 1, 1, -1] = [0, 1, 2, 3, 5] := by
      norm_num [zero_crossings, npSign, List.range_succ]
    have hci : crossing_intervals [1, -1, 1, -1, 1, 1, -1] = [1, 1, 1, 2] := by
      norm_num [crossing_intervals, hz, npDiff]
    have hval : valid_intervals [1, -1, 1, -1, 1, 1, -1] = [1, 1, 1] := by
      norm_num [valid_intervals, hci, npMedian, npVariance, npMean,
        List.insertionSort, List.orderedInsert]
    have h := (improved_zero_crossing_detection_spec [1, -1, 1, -1, 1, 1, -1]
        100).2.2
      (by rw [hz]; norm_num) (by rw [hval]; simp)
    rw [h, hval]
    norm_num [npMean]

/-- Auxiliary: the fold building `fundamental_candidates` only ever appends
elements of the traversed list to its accumulator. -/
theorem fundamental_candidates_foldl_spec (l : List ℚ) :
    ∀ acc : List ℚ, ∃ t,
      l.foldl (fun fc freq =>
        if fc.any (fun lower => is_harmonic_of freq lower) then fc
        else fc ++ [freq]) acc = acc ++ t ∧ ∀ x ∈ t, x ∈ l := by
  induction l with
  | nil => exact fun acc => ⟨[], by simp, by simp⟩
  | cons f rest ih =>
    intro acc
    by_cases h : acc.any (fun lower => is_harmonic_of f lower)
    · simp only [List.foldl_cons, if_pos h]
      obtain ⟨t, h1, h2⟩ := ih acc
      exact ⟨t, h1, fun x hx => List.mem_cons_of_mem _ (h2 x hx)⟩
    · simp only [List.foldl_cons, if_neg h]
      obtain ⟨t, h1, h2⟩ := ih (acc ++ [f])
      refine ⟨f :: t, by rw [h1]; simp, ?_⟩
      intro x hx
      rcases List.mem_cons.mp hx with h' | h'
      · simp [h']
      · exact List.mem_cons_of_mem _ (h2 x h')

/-- Auxiliary: `listMin a l = a` when `a` is a lower bound of `l`. -/
theorem listMin_eq_self (l : List ℚ) : ∀ a : ℚ, (∀ x ∈ l, a ≤ x) →
    listMin a l = a := by
  induction l with
  | nil => intro a _; rfl
  | cons x xs ih =>
    intro a h
    unfold listMin at ih ⊢
    simp only [List.foldl_cons]
    rw [min_eq_left (h x (by simp))]
    exact ih a (fun y hy => h y (by simp [hy]))

/-- C10: for every non-empty candidate list, `_find_fundamental_frequency`
returns exactly the minimum of the candidates — the lowest (first) element
of the sorted list always survives the harmonic suppression because the
retained set starts empty, everything later appended is at least as large,
and the `fundamental_candidates` list is therefore never empty (the
"suppression removed everything" fallback branch is unreachable). -/
theorem find_fundamental_frequency_min (c : ℚ) (cs : List ℚ) :
    (find_fundamental_frequency (c :: cs) ∈ c :: cs ∧
      ∀ x ∈ c :: cs, find_fundamental_frequency (c :: cs) ≤ x) ∧
    fundamental_candidates ((c :: cs).insertionSort (· ≤ ·)) ≠ [] := by
  obtain ⟨s0, stail, hs⟩ : ∃ s0 stail,
      (c :: cs).insertionSort (· ≤ ·) = s0 :: stail := by
    cases h : (c :: cs).insertionSort (· ≤ ·) with
    | nil =>
      have := (List.perm_insertionSort (· ≤ ·) (c :: cs)).length_eq
      rw [h] at this
      simp at this
    | cons s0 stail => exact ⟨s0, stail, rfl⟩
  have hsort : List.Sorted (· ≤ ·) (s0 :: stail) := by
    rw [← hs]; exact List.sorted_insertionSort (· ≤ ·) (c :: cs)
  have hle : ∀ b ∈ stail, s0 ≤ b := (List.sorted_cons.mp hsort).1
  have hperm : (s0 :: stail).Perm (c :: cs) := by
    rw [← hs]; exact List.perm_insertionSort (· ≤ ·) (c :: cs)
  obtain ⟨t, hfold, ht⟩ := fundamental_candidates_foldl_spec stail [s0]
  have hfc : fundamental_candidates (s0 :: stail) = s0 :: t := by
    unfold fundamental_candidates
    rw [List.foldl_cons]
    have hacc : (if ([] : List ℚ).any (fun lower => is_harmonic_of s0 lower)
        then ([] : List ℚ) else [] ++ [s0]) = [s0] := by simp
    rw [hacc, hfold]
    rfl
  have hmin : listMin s0 t = s0 :=
    listMin_eq_self t s0 (fun x hx => hle x (ht x hx))
  have hs0mem : s0 ∈ c :: cs := hperm.mem_iff.mp (by simp)
  have hlb : ∀ x ∈ c :: cs, s0 ≤ x := by
    intro x hx
    rcases List.mem_cons.mp (hperm.mem_iff.mpr hx) with h' | h'
    · exact le_of_eq h'.symm
    · exact hle x h'
  by_cases hcs : cs = []
  · subst hcs
    have hone : find_fundamental_frequency [c] = c := rfl
    refine ⟨⟨by rw [hone]; simp, ?_⟩, ?_⟩
    · intro x hx
      simp only [List.mem_cons, List.not_mem_nil, or_false] at hx
      rw [hone, hx]
    · rw [hs, hfc]
      simp
  · have hval : find_fundamental_frequency (c :: cs) = s0 := by
      show (if cs = [] then c
        else
          match fundamental_candidates ((c :: cs).insertionSort (· ≤ ·)) with
          | [] => listMin c cs
          | f :: fs => listMin f fs) = s0
      rw [if_neg hcs, hs, hfc]
      exact hmin
    exact ⟨⟨hval ▸ hs0mem, fun x hx => hval ▸ hlb x hx⟩, by rw [hs, hfc]; simp⟩

/-- C10 (witness): on the candidate list `[240, 120, 360]` the consensus
returns a member of the list that is at most 120, i.e. the minimum. -/
theorem find_fundamental_frequency_min_witness :
    find_fundamental_frequency [240, 120, 360] ∈ ([240, 120, 360] : List ℚ) ∧
      find_fundamental_frequency [240, 120, 360] ≤ 120 :=
  ⟨(find_fundamental_frequency_min 240 [120, 360]).1.1,
   (find_fundamental_frequency_min 240 [120, 360]).1.2 120 (by norm_num)⟩

end BeautifulFlicker
